import Mathlib

/-
  Verification of the PJe TRF6 public-lookup scraper (src/main.py).

  The development shallowly embeds the pure text-processing functions of the
  source (norm, sanitize_doc, the CNJ case-number pattern, the noise filter,
  label-value extraction, movement extraction) as executable Lean functions on
  `List Char` and `String`, and the orchestrator `scrape_pje` as a pure
  function over an explicit environment describing the browser world (which
  elements are found, which steps raise, which links are on the page).

  Modelling conventions:
  - Python regex character classes are modelled at ASCII precision
    (`\d` is `Char.isDigit`, `\s` is `Char.isWhitespace`, `\w` is
    alphanumeric-or-underscore; case folding is ASCII `Char.toLower`).
  - A Python exception is a `String` (its `str(e)` rendering); a step that can
    raise is given an `Option String` injection point in the environment.
  - A Python dict with optional keys is a structure whose absent keys are
    `none` / `[]` defaults.
-/

/-! ## Text normalizer (Python `_norm`, src/main.py:28-29)
    `re.sub(r"\s+", " ", txt).strip()` : collapse whitespace runs to a single
    space and strip the ends. -/

def normGo (emitted pending : Bool) : List Char → List Char
  | [] => []
  | c :: cs =>
    if c.isWhitespace then normGo emitted true cs
    else if emitted && pending then ' ' :: c :: normGo true false cs
    else c :: normGo true false cs

def norm (s : String) : String := String.mk (normGo false false s.toList)

/-! ## Digit-only sanitizer (Python `sanitize_doc`, src/main.py:31-33)
    `re.sub(r"\D+", "", doc or "")` : keep exactly the digit characters. -/

def sanitize_doc (doc : String) : String :=
  String.mk (doc.toList.filter Char.isDigit)

/-! ## CNJ case-number pattern (Python `CNJ_RE`, src/main.py:18)
    `\b\d{7}-\d{2}\.\d{4}\.\d\.\d{2}\.\d{4}\b` -/

/-- Consume exactly `n` digits, returning the digit group and the rest. -/
def splitDigits : Nat → List Char → Option (List Char × List Char)
  | 0, cs => some ([], cs)
  | _ + 1, [] => none
  | n + 1, c :: cs =>
    if c.isDigit then
      match splitDigits n cs with
      | some (g, r) => some (c :: g, r)
      | none => none
    else none

/-- Consume one expected literal character. -/
def expectChar (d : Char) : List Char → Option (List Char)
  | [] => none
  | c :: cs => if c = d then some cs else none

/-- Match the CNJ pattern body (`\d{7}-\d{2}\.\d{4}\.\d\.\d{2}\.\d{4}`) at the
    head of the list, returning the matched characters and the rest. -/
def cnjAt (cs : List Char) : Option (List Char × List Char) :=
  (splitDigits 7 cs).bind fun p1 =>
  (expectChar '-' p1.2).bind fun r1 =>
  (splitDigits 2 r1).bind fun p2 =>
  (expectChar '.' p2.2).bind fun r2 =>
  (splitDigits 4 r2).bind fun p3 =>
  (expectChar '.' p3.2).bind fun r3 =>
  (splitDigits 1 r3).bind fun p4 =>
  (expectChar '.' p4.2).bind fun r4 =>
  (splitDigits 2 r4).bind fun p5 =>
  (expectChar '.' p5.2).bind fun r5 =>
  (splitDigits 4 r5).bind fun p6 =>
  some (p1.1 ++ '-' :: (p2.1 ++ '.' :: (p3.1 ++ '.' :: (p4.1 ++ '.' :: (p5.1 ++ '.' :: p6.1)))), p6.2)

/-- Python regex word character, ASCII precision (`\w`). -/
def isWordChar (c : Char) : Bool := c.isAlphanum || c = '_'

/-- The trailing `\b` of `CNJ_RE`: the remainder starts with a non-word
    character or is empty. -/
def noWordAt : List Char → Bool
  | [] => true
  | c :: _ => !isWordChar c

/-- Leftmost search for `CNJ_RE` (Python `CNJ_RE.search(...).group(0)`).
    `prevWord` records whether the character before the current position is a
    word character (for the leading `\b`). -/
def cnjSearchGo (prevWord : Bool) : List Char → Option String
  | [] => none
  | c :: cs =>
    match (if prevWord then none
           else match cnjAt (c :: cs) with
                | some (m, r) => if noWordAt r then some (String.mk m) else none
                | none => none) with
    | some s => some s
    | none => cnjSearchGo (isWordChar c) cs

def cnjSearch (s : String) : Option String := cnjSearchGo false s.toList

/-- Full-string match of `CNJ_RE` (the leading and trailing `\b` hold
    trivially at the ends of the string). -/
def cnjFull (s : String) : Bool :=
  match cnjAt s.toList with
  | some (_, []) => true
  | _ => false

/-- The shape the specification describes for a case number: digit groups of
    sizes 7-2-4-1-2-4 joined by dash, dot, dot, dot, dot. -/
def cnjShape (s : String) : Prop :=
  ∃ g1 g2 g3 g4 g5 g6 : List Char,
    s.toList = g1 ++ '-' :: (g2 ++ '.' :: (g3 ++ '.' :: (g4 ++ '.' :: (g5 ++ '.' :: g6)))) ∧
    g1.length = 7 ∧ g2.length = 2 ∧ g3.length = 4 ∧
    g4.length = 1 ∧ g5.length = 2 ∧ g6.length = 4 ∧
    (∀ c ∈ g1, c.isDigit = true) ∧ (∀ c ∈ g2, c.isDigit = true) ∧
    (∀ c ∈ g3, c.isDigit = true) ∧ (∀ c ∈ g4, c.isDigit = true) ∧
    (∀ c ∈ g5, c.isDigit = true) ∧ (∀ c ∈ g6, c.isDigit = true)

/-! ## Noise filter (Python `UNWANTED_RE`, src/main.py:21-26)
    `(documentos?\s+juntados|documento\b|certid[aã]o|visualizar|pjeoffice|
      indispon[ií]vel|aplicativo\s+pjeoffice|página\b|resultados?\s+encontrados|
      recibo)` with `re.IGNORECASE` (modelled by ASCII-lowercasing the text
    first; the pattern literals are already lower case). -/

/-- Consume an exact literal. -/
def eatLit : List Char → List Char → Option (List Char)
  | [], cs => some cs
  | _ :: _, [] => none
  | p :: ps, c :: cs => if c = p then eatLit ps cs else none

/-- Consume `\s+` followed by nothing else: one whitespace character then any
    further run of whitespace (the following literal starts with a non-space
    letter, so maximal consumption is exact). -/
def eatWs1 : List Char → Option (List Char)
  | [] => none
  | c :: cs => if c.isWhitespace then some (cs.dropWhile Char.isWhitespace) else none

/-- Does some alternative of `UNWANTED_RE` match starting at this position of
    the (already lowercased) text? -/
def unwantedAt (cs : List Char) : Bool :=
  (match eatLit "documento".toList cs with
   | some r =>
     (match eatWs1 r with
      | some r2 => (eatLit "juntados".toList r2).isSome
      | none => false)
     || (match eatLit "s".toList r with
         | some r1 =>
           match eatWs1 r1 with
           | some r2 => (eatLit "juntados".toList r2).isSome
           | none => false
         | none => false)
     || noWordAt r
   | none => false)
  || (eatLit "certidao".toList cs).isSome
  || (eatLit "certidão".toList cs).isSome
  || (eatLit "visualizar".toList cs).isSome
  || (eatLit "pjeoffice".toList cs).isSome
  || (eatLit "indisponivel".toList cs).isSome
  || (eatLit "indisponível".toList cs).isSome
  || (match eatLit "aplicativo".toList cs with
      | some r =>
        match eatWs1 r with
        | some r2 => (eatLit "pjeoffice".toList r2).isSome
        | none => false
      | none => false)
  || (match eatLit "página".toList cs with
      | some r => noWordAt r
      | none => false)
  || (match eatLit "resultado".toList cs with
      | some r =>
        (match eatWs1 r with
         | some r2 => (eatLit "encontrados".toList r2).isSome
         | none => false)
        || (match eatLit "s".toList r with
            | some r1 =>
              match eatWs1 r1 with
              | some r2 => (eatLit "encontrados".toList r2).isSome
              | none => false
            | none => false)
      | none => false)
  || (eatLit "recibo".toList cs).isSome

def unwantedSearchGo : List Char → Bool
  | [] => false
  | c :: cs => unwantedAt (c :: cs) || unwantedSearchGo cs

/-- `UNWANTED_RE.search(s)` is not `None`. -/
def unwanted (s : String) : Bool :=
  unwantedSearchGo (s.toList.map Char.toLower)

/-! ## Label-value extraction (Python `find_value` inside `extract_metadata`,
    src/main.py:143-172) -/

/-- ASCII lowercasing (Python `str.lower`, ASCII precision). -/
def lowerS (s : String) : String := String.mk (s.toList.map Char.toLower)

/-- ASCII uppercasing (Python `str.upper`, ASCII precision). -/
def upperS (s : String) : String := String.mk (s.toList.map Char.toUpper)

/-- Substring test (Python `pat in hay`). -/
def isPrefixList : List Char → List Char → Bool
  | [], _ => true
  | _ :: _, [] => false
  | p :: ps, c :: cs => p = c && isPrefixList ps cs

def containsSub (pat : List Char) : List Char → Bool
  | [] => pat.isEmpty
  | c :: cs => isPrefixList pat (c :: cs) || containsSub pat cs

def strContains (hay pat : String) : Bool := containsSub pat.toList hay.toList

/-- `any(k in low for k in keys_l)` for the lowercased line. -/
def lineHasKey (keysL : List String) (ln : String) : Bool :=
  keysL.any (fun k => strContains (lowerS ln) k)

/-- `re.split(r"[:\-]\s*", ln, maxsplit=1)`: the text after the first colon or
    dash, with the whitespace following the separator removed; `none` when the
    line has no separator (`len(parts) == 1`). -/
def splitSep : List Char → Option (List Char)
  | [] => none
  | c :: cs =>
    if c = ':' || c = '-' then some (cs.dropWhile Char.isWhitespace)
    else splitSep cs

/-- `strip()` of the remaining text. -/
def stripList (cs : List Char) : List Char :=
  ((cs.dropWhile Char.isWhitespace).reverse.dropWhile Char.isWhitespace).reverse

/-- Candidate (a) of the label-value rule: the line's own right-hand side, if
    the line splits, the stripped value is non-empty, and it is not noise. -/
def rhsCandidate (ln : String) : Option String :=
  match splitSep ln.toList with
  | none => none
  | some post =>
    let v := stripList post
    if v ≠ [] ∧ unwanted (String.mk v) = false then some (String.mk v) else none

def findValueGo (keysL : List String) : List String → Option String
  | [] => none
  | ln :: rest =>
    if lineHasKey keysL ln then
      match rhsCandidate ln with
      | some v => some v
      | none =>
        match rest with
        | nxt :: _ => if unwanted nxt then findValueGo keysL rest else some nxt
        | [] => none
    else findValueGo keysL rest

def find_value (keys : List String) (lines : List String) : Option String :=
  findValueGo (keys.map lowerS) lines

/-- Modelled from the spec: the label-value extraction rule as the claim
    states it, with "first label match wins" read strictly — the scan stops at
    the first line containing a synonym key; if neither that line's right-hand
    side nor the next line yields a usable value, the field is null. Written
    only to be compared with `find_value`, the rule the source implements. -/
def findValueFirstGo (keysL : List String) : List String → Option String
  | [] => none
  | ln :: rest =>
    if lineHasKey keysL ln then
      match rhsCandidate ln with
      | some v => some v
      | none =>
        match rest with
        | nxt :: _ => if unwanted nxt then none else some nxt
        | [] => none
    else findValueFirstGo keysL rest

def find_value_firstMatch (keys : List String) (lines : List String) : Option String :=
  findValueFirstGo (keys.map lowerS) lines

/-! ## Metadata extraction (Python `extract_metadata`, src/main.py:143-172).
    The popup body text is `Option String`: `none` models
    `popup.locator("body").inner_text()` raising, in which case the function
    returns the empty dict (all fields absent). -/

structure Metadata where
  assunto : Option String := none
  classe_judicial : Option String := none
  data_distribuicao : Option String := none
  orgao_julgador : Option String := none
  jurisdicao : Option String := none
deriving DecidableEq, Repr

/-- Split on newline characters (Python `str.split("\n")`, keeping empties). -/
def splitNl : List Char → List (List Char)
  | [] => [[]]
  | c :: cs =>
    if c = '\n' then [] :: splitNl cs
    else
      match splitNl cs with
      | [] => [[c]]
      | l :: ls => (c :: l) :: ls

/-- `[_norm(ln) for ln in body.replace("\r", "").split("\n") if _norm(ln)]` -/
def metadataLines (body : String) : List String :=
  ((splitNl (body.toList.filter (fun c => c ≠ '\r'))).map
      (fun l => String.mk (normGo false false l))).filter (fun s => s ≠ "")

def extract_metadata (body : Option String) : Metadata :=
  match body with
  | none => {}
  | some b =>
    let lines := metadataLines b
    { assunto := find_value ["assunto"] lines
      classe_judicial := find_value ["classe judicial", "classe"] lines
      data_distribuicao := find_value ["distribuição"] lines
      orgao_julgador := find_value ["órgão julgador"] lines
      jurisdicao := find_value ["jurisdição", "comarca"] lines }

/-! ## Movement extraction (Python `extract_movements`, src/main.py:174-194).
    The popup is modelled by the list of row inner-texts each of the three
    selectors resolves to; the code uses the first selector with at least one
    row, iterates at most 20 rows, and keeps a normalized row text when it is
    non-empty, unseen, and not noise. -/

def firstNonEmptyRows : List (List String) → List String
  | [] => []
  | rs :: rest => if rs.isEmpty then firstNonEmptyRows rest else rs

def movFilter (seen : List String) : List String → List String
  | [] => []
  | r :: rest =>
    let t := norm r
    if t ≠ "" ∧ t ∉ seen ∧ unwanted t = false then t :: movFilter (t :: seen) rest
    else movFilter seen rest

def extract_movements (rowsPerSelector : List (List String)) : List String :=
  movFilter [] ((firstNonEmptyRows rowsPerSelector).take 20)

/-! ## The result assembler and orchestrator (`scrape_pje`, src/main.py:207-308).

    The browser world of one invocation is an `Env`: which steps raise (a
    raised Python exception is its `str(e)` string), whether the document
    input is found, whether the submit button exists and whether its timed
    click fails, the anchor elements of the result page, and whether the page
    content carries the explicit no-records phrase. Each anchor (`Link`)
    carries its inner text, the inner text of its enclosing table row
    (`none` models `extract_partes_from_row` raising), its popup behaviour
    (`none` models `expect_popup` timing out after both click attempts), and
    an injection point `raises` for an unanticipated exception while that
    link is processed. -/

structure PopupData where
  body : Option String := none
  movementRows : List (List String) := []
deriving DecidableEq, Repr

structure Link where
  text : String
  rowText : Option String := none
  popup : Option PopupData := none
  raises : Option String := none
deriving DecidableEq, Repr

/-- One entry of `result["processos"]`; keys the Python dict does not carry on
    a given path are `none` / `[]`. -/
structure Proc where
  numero : String
  partes_resumo : Option String := none
  assunto : Option String := none
  classe_judicial : Option String := none
  data_distribuicao : Option String := none
  orgao_julgador : Option String := none
  jurisdicao : Option String := none
  movimentacoes : List String := []
  aviso : Option String := none
  resumo : Option String := none
deriving DecidableEq, Repr

/-- The record appended when the popup opened (src/main.py:283-291). -/
def fullRecord (numero : String) (partes : Option String) (p : PopupData) : Proc :=
  let m := extract_metadata p.body
  { numero := numero
    partes_resumo := partes
    assunto := m.assunto
    classe_judicial := m.classe_judicial
    data_distribuicao := m.data_distribuicao
    orgao_julgador := m.orgao_julgador
    jurisdicao := m.jurisdicao
    movimentacoes := extract_movements p.movementRows }

/-- The record appended when the popup did not open (src/main.py:293-298). -/
def warnRecord (numero : String) (partes : Option String) : Proc :=
  { numero := numero, aviso := some "popup_nao_abriu", resumo := partes }

/-- `CNJ_RE.search(_norm(link.inner_text()))` of the loop body. -/
def linkNum (l : Link) : Option String := cnjSearch (norm l.text)

structure LoopOut where
  procs : List Proc
  seen : List String
  erro : Option String
deriving DecidableEq, Repr

/-- The result loop (src/main.py:268-298): state is the accumulated
    `result["processos"]` and the `seen_nums` set; an exception while
    processing a link aborts the loop with the partial accumulator. -/
def processLinks : List Link → List String → List Proc → LoopOut
  | [], seen, acc => ⟨acc, seen, none⟩
  | l :: rest, seen, acc =>
    match l.raises with
    | some e => ⟨acc, seen, some e⟩
    | none =>
      match linkNum l with
      | none => processLinks rest seen acc
      | some numero =>
        if numero ∈ seen then processLinks rest seen acc
        else
          let partes := l.rowText.map norm
          match l.popup with
          | some p => processLinks rest (numero :: seen) (acc ++ [fullRecord numero partes p])
          | none => processLinks rest (numero :: seen) (acc ++ [warnRecord numero partes])

/-- The three-way submit dispatch of the source (src/main.py:243-247): a found
    button gets a timed interactive click whose failure raises; a missing
    button falls back to pressing Enter on the input. (`scriptedClick` is the
    outcome the specification describes for a failed click; the source never
    produces it for the submit control.) -/
inductive SubmitPath where
  | interactiveClick
  | scriptedClick
  | pressEnter
  | raised (e : String)
deriving DecidableEq, Repr

def submitPath (btnFound : Bool) (clickRaises : Option String) : SubmitPath :=
  if btnFound then
    match clickRaises with
    | some e => SubmitPath.raised e
    | none => SubmitPath.interactiveClick
  else SubmitPath.pressEnter

structure Env where
  gotoRaises : Option String := none
  inputFound : Bool := true
  fillRaises : Option String := none
  submitBtnFound : Bool := true
  submitClickRaises : Option String := none
  links : List Link := []
  noRecordsPhrase : Bool := false
deriving DecidableEq, Repr

/-- `page.locator("a").filter(has_text=CNJ_RE)` (src/main.py:255). -/
def procLinksOf (env : Env) : List Link :=
  env.links.filter (fun l => (cnjSearch l.text).isSome)

structure BodyOut where
  processos : List Proc
  mensagem : Option String
  erro : Option String
deriving DecidableEq, Repr

/-- The `try` block of `scrape_pje` (src/main.py:226-298): navigation, kind
    selection (which swallows its own errors and changes no observable
    state), input lookup, fill, submit, the spinner wait (which swallows all
    errors), the no-records check, and the extraction loop. The `erro` field
    is the exception escaping the block, if any. -/
def runBody (env : Env) : BodyOut :=
  match env.gotoRaises with
  | some e => ⟨[], none, some e⟩
  | none =>
    if !env.inputFound then ⟨[], none, some "campo_input_nao_encontrado"⟩
    else
      match env.fillRaises with
      | some e => ⟨[], none, some e⟩
      | none =>
        match submitPath env.submitBtnFound env.submitClickRaises with
        | SubmitPath.raised e => ⟨[], none, some e⟩
        | _ =>
          let pls := procLinksOf env
          if pls.length = 0 ∧ env.noRecordsPhrase then
            ⟨[], some "nenhum_processo_encontrado", none⟩
          else
            let out := processLinks pls [] []
            ⟨out.procs, none, out.erro⟩

structure QueryResult where
  documento : String
  tipo : String
  timestamp : String
  processos : List Proc
  mensagem : Option String := none
  erro_interno : Option String := none
deriving DecidableEq, Repr

/-- `scrape_pje` (src/main.py:207-308): the result dict is initialized with
    the input digits, the uppercased kind and the invocation timestamp; the
    body runs under one `try` whose `except` records `str(e)` into
    `erro_interno`; the `finally` closes the browser on every path — the
    second component of the returned pair is that the session was closed. -/
def scrape_pje (doc_digits tipo ts : String) (env : Env) : QueryResult × Bool :=
  let b := runBody env
  ({ documento := doc_digits
     tipo := upperS tipo
     timestamp := ts
     processos := b.processos
     mensagem := b.mensagem
     erro_interno := b.erro }, true)

/-- The per-record warning invariant of the loop: either no warning (popup
    path) or exactly the popup-failure shape — the fixed warning string, no
    metadata, no movements, no success-path summary key. -/
def AvisoOk (r : Proc) : Prop :=
  r.aviso = none ∨
  (r.aviso = some "popup_nao_abriu" ∧ r.partes_resumo = none ∧ r.assunto = none ∧
   r.classe_judicial = none ∧ r.data_distribuicao = none ∧ r.orgao_julgador = none ∧
   r.jurisdicao = none ∧ r.movimentacoes = [])

/-! ## Sanity evaluations of the embedding on concrete inputs -/

example : sanitize_doc "123.456.789-00" = "12345678900" := by decide

example : cnjFull "1234567-89.2023.4.06.0001" = true := by decide

example : cnjFull "123456-89.2023.4.06.0001" = false := by decide

example : cnjSearch "Processo 1234567-89.2023.4.06.0001 - Teste" = some "1234567-89.2023.4.06.0001" := by decide

example : norm "  a   b " = "a b" := by decide

example : unwanted "Visualizar documento" = true := by decide

example : unwanted "Certidão" = true := by decide

example : unwanted "Dano moral" = false := by decide

example : unwanted "Procedimento Comum" = false := by decide

example : unwanted "10 resultados encontrados" = true := by decide

example : unwanted "Documentos  juntados aos autos" = true := by decide

example : unwanted "documentos" = false := by decide

example : find_value ["assunto"] ["Assunto: Dano moral", "Autuado em 2023"] = some "Dano moral" := by decide

example : find_value ["classe judicial", "classe"] ["Classe", "Procedimento Comum"] = some "Procedimento Comum" := by decide

example : find_value ["assunto"] ["Assunto: Visualizar documento"] = none := by decide

example : find_value ["assunto"] ["Assunto: Visualizar documento", "Certidão", "Assunto: Dano moral"] = some "Dano moral" := by decide

example :
    extract_metadata (some "Assunto: Dano moral\r\nClasse Judicial\nProcedimento Comum\n\n") =
      { assunto := some "Dano moral", classe_judicial := some "Procedimento Comum" } := by decide

example :
    extract_movements [[], ["Despacho  em 01/01/2024", "Despacho em 01/01/2024", "Visualizar documento", "Juntada"]] =
      ["Despacho em 01/01/2024", "Juntada"] := by decide

example :
    (scrape_pje "12345678900" "cpf" "2026-10-12T00:00:00Z"
      { links := [{ text := "1234567-89.2023.4.06.0001", rowText := some "1234567-89.2023.4.06.0001  AUTOR x REU" }] }).1.processos =
    [{ numero := "1234567-89.2023.4.06.0001", aviso := some "popup_nao_abriu",
       resumo := some "1234567-89.2023.4.06.0001 AUTOR x REU" }] := by decide

example :
    (scrape_pje "12345678900" "cpf" "T" { links := [], noRecordsPhrase := true }).1.mensagem =
      some "nenhum_processo_encontrado" := by decide

example :
    (scrape_pje "12345678900" "cpf" "T" ({} : Env)).1.mensagem = none := by decide

/-! # Support lemmas -/

theorem expectChar_eq_some {d : Char} {cs r : List Char} :
    expectChar d cs = some r ↔ cs = d :: r := by
  cases cs with
  | nil => simp [expectChar]
  | cons c cs' =>
    by_cases h : c = d
    · subst h; simp [expectChar]
    · simp [expectChar, h, Ne.symm h]

theorem splitDigits_sound : ∀ {n : Nat} {cs g r : List Char},
    splitDigits n cs = some (g, r) →
    cs = g ++ r ∧ g.length = n ∧ ∀ c ∈ g, c.isDigit = true := by
  intro n
  induction n with
  | zero =>
    intro cs g r h
    simp only [splitDigits, Option.some.injEq, Prod.mk.injEq] at h
    obtain ⟨hg, hr⟩ := h
    subst hg; subst hr; simp
  | succ n ih =>
    intro cs g r h
    cases cs with
    | nil => simp [splitDigits] at h
    | cons c cs' =>
      simp only [splitDigits] at h
      by_cases hd : c.isDigit
      · rw [if_pos hd] at h
        cases hsub : splitDigits n cs' with
        | none => rw [hsub] at h; simp at h
        | some p =>
          obtain ⟨g', r'⟩ := p
          rw [hsub] at h
          simp only [Option.some.injEq, Prod.mk.injEq] at h
          obtain ⟨hg, hr⟩ := h
          subst hg; subst hr
          obtain ⟨h1, h2, h3⟩ := ih hsub
          subst h1
          refine ⟨rfl, by simp [h2], ?_⟩
          intro x hx
          rcases List.mem_cons.mp hx with h | h
          · subst h; exact hd
          · exact h3 x h
      · rw [if_neg hd] at h; simp at h

theorem splitDigits_complete : ∀ {g r : List Char},
    (∀ c ∈ g, c.isDigit = true) → splitDigits g.length (g ++ r) = some (g, r) := by
  intro g
  induction g with
  | nil => intro r _; simp [splitDigits]
  | cons c g' ih =>
    intro r hd
    have hc : c.isDigit = true := hd c (List.mem_cons_self c g')
    simp [splitDigits, hc, ih (fun x hx => hd x (List.mem_cons_of_mem c hx))]

theorem cnjAt_sound {cs m r : List Char} (h : cnjAt cs = some (m, r)) :
    ∃ g1 g2 g3 g4 g5 g6 : List Char,
      cs = g1 ++ '-' :: (g2 ++ '.' :: (g3 ++ '.' :: (g4 ++ '.' :: (g5 ++ '.' :: (g6 ++ r))))) ∧
      m = g1 ++ '-' :: (g2 ++ '.' :: (g3 ++ '.' :: (g4 ++ '.' :: (g5 ++ '.' :: g6)))) ∧
      g1.length = 7 ∧ g2.length = 2 ∧ g3.length = 4 ∧
      g4.length = 1 ∧ g5.length = 2 ∧ g6.length = 4 ∧
      (∀ c ∈ g1, c.isDigit = true) ∧ (∀ c ∈ g2, c.isDigit = true) ∧
      (∀ c ∈ g3, c.isDigit = true) ∧ (∀ c ∈ g4, c.isDigit = true) ∧
      (∀ c ∈ g5, c.isDigit = true) ∧ (∀ c ∈ g6, c.isDigit = true) := by
  simp only [cnjAt, Option.bind_eq_some] at h
  obtain ⟨⟨g1, r1⟩, h1, r1', e1, ⟨g2, r2⟩, h2, r2', e2, ⟨g3, r3⟩, h3, r3', e3,
    ⟨g4, r4⟩, h4, r4', e4, ⟨g5, r5⟩, h5, r5', e5, ⟨g6, r6⟩, h6, hfin⟩ := h
  simp only [Option.some.injEq, Prod.mk.injEq] at hfin
  obtain ⟨hm, hr⟩ := hfin
  obtain ⟨c1, l1, d1⟩ := splitDigits_sound h1
  obtain ⟨c2, l2, d2⟩ := splitDigits_sound h2
  obtain ⟨c3, l3, d3⟩ := splitDigits_sound h3
  obtain ⟨c4, l4, d4⟩ := splitDigits_sound h4
  obtain ⟨c5, l5, d5⟩ := splitDigits_sound h5
  obtain ⟨c6, l6, d6⟩ := splitDigits_sound h6
  rw [expectChar_eq_some] at e1 e2 e3 e4 e5
  refine ⟨g1, g2, g3, g4, g5, g6, ?_, ?_, l1, l2, l3, l4, l5, l6, d1, d2, d3, d4, d5, d6⟩
  · subst hr
    simp only at c1 c2 c3 c4 c5 c6 e1 e2 e3 e4 e5
    rw [c1, e1, c2, e2, c3, e3, c4, e4, c5, e5, c6]
  · simpa using hm.symm

theorem cnjAt_complete {g1 g2 g3 g4 g5 g6 r : List Char}
    (h1 : g1.length = 7) (h2 : g2.length = 2) (h3 : g3.length = 4)
    (h4 : g4.length = 1) (h5 : g5.length = 2) (h6 : g6.length = 4)
    (d1 : ∀ c ∈ g1, c.isDigit = true) (d2 : ∀ c ∈ g2, c.isDigit = true)
    (d3 : ∀ c ∈ g3, c.isDigit = true) (d4 : ∀ c ∈ g4, c.isDigit = true)
    (d5 : ∀ c ∈ g5, c.isDigit = true) (d6 : ∀ c ∈ g6, c.isDigit = true) :
    cnjAt (g1 ++ '-' :: (g2 ++ '.' :: (g3 ++ '.' :: (g4 ++ '.' :: (g5 ++ '.' :: (g6 ++ r)))))) =
      some (g1 ++ '-' :: (g2 ++ '.' :: (g3 ++ '.' :: (g4 ++ '.' :: (g5 ++ '.' :: g6)))), r) := by
  have e1 : splitDigits 7 (g1 ++ '-' :: (g2 ++ '.' :: (g3 ++ '.' :: (g4 ++ '.' :: (g5 ++ '.' :: (g6 ++ r)))))) =
      some (g1, '-' :: (g2 ++ '.' :: (g3 ++ '.' :: (g4 ++ '.' :: (g5 ++ '.' :: (g6 ++ r)))))) := by
    rw [← h1]; exact splitDigits_complete d1
  have e2 : splitDigits 2 (g2 ++ '.' :: (g3 ++ '.' :: (g4 ++ '.' :: (g5 ++ '.' :: (g6 ++ r))))) =
      some (g2, '.' :: (g3 ++ '.' :: (g4 ++ '.' :: (g5 ++ '.' :: (g6 ++ r))))) := by
    rw [← h2]; exact splitDigits_complete d2
  have e3 : splitDigits 4 (g3 ++ '.' :: (g4 ++ '.' :: (g5 ++ '.' :: (g6 ++ r)))) =
      some (g3, '.' :: (g4 ++ '.' :: (g5 ++ '.' :: (g6 ++ r)))) := by
    rw [← h3]; exact splitDigits_complete d3
  have e4 : splitDigits 1 (g4 ++ '.' :: (g5 ++ '.' :: (g6 ++ r))) =
      some (g4, '.' :: (g5 ++ '.' :: (g6 ++ r))) := by
    rw [← h4]; exact splitDigits_complete d4
  have e5 : splitDigits 2 (g5 ++ '.' :: (g6 ++ r)) = some (g5, '.' :: (g6 ++ r)) := by
    rw [← h5]; exact splitDigits_complete d5
  have e6 : splitDigits 4 (g6 ++ r) = some (g6, r) := by
    rw [← h6]; exact splitDigits_complete d6
  simp [cnjAt, e1, e2, e3, e4, e5, e6, expectChar]

/-! # Claim theorems -/

/-- C9: for every string input, `sanitize_doc` removes every non-digit
    character — its output contains only the digits 0-9 — and it is
    idempotent. -/
theorem sanitize_doc_digits_idempotent :
    ∀ x : String, (∀ c ∈ (sanitize_doc x).toList, c.isDigit = true) ∧
      sanitize_doc (sanitize_doc x) = sanitize_doc x := by
  intro x
  constructor
  · intro c hc
    simp only [sanitize_doc, String.toList, List.mem_filter] at hc
    exact hc.2
  · simp [sanitize_doc, String.toList, List.filter_filter]

theorem sanitize_doc_witness :
    sanitize_doc (sanitize_doc "123.456.789-00") = sanitize_doc "123.456.789-00" :=
  (sanitize_doc_digits_idempotent "123.456.789-00").2

/-- C8: the case-number pattern, matched against a whole string, accepts
    exactly the strings made of digit groups of sizes 7-2-4-1-2-4 joined by
    dash, dot, dot, dot, dot, and rejects near-misses such as a wrong group
    length or a missing separator. -/
theorem cnj_pattern_exact :
    (∀ s : String, cnjFull s = true ↔ cnjShape s) ∧
    cnjFull "1234567-89.2023.4.06.0001" = true ∧
    cnjFull "123456-89.2023.4.06.0001" = false ∧
    cnjFull "12345678-89.2023.4.06.0001" = false ∧
    cnjFull "1234567-89.2023.4.06" = false ∧
    cnjFull "1234567 89.2023.4.06.0001" = false ∧
    cnjFull "1234567-89.2023.4.06.00010" = false := by
  refine ⟨?_, by decide, by decide, by decide, by decide, by decide, by decide⟩
  intro s
  constructor
  · intro h
    unfold cnjFull at h
    cases hA : cnjAt s.toList with
    | none => rw [hA] at h; simp at h
    | some p =>
      obtain ⟨m, r⟩ := p
      rw [hA] at h
      cases r with
      | cons c cs => simp at h
      | nil =>
        obtain ⟨g1, g2, g3, g4, g5, g6, hcs, _, l1, l2, l3, l4, l5, l6,
          d1, d2, d3, d4, d5, d6⟩ := cnjAt_sound hA
        exact ⟨g1, g2, g3, g4, g5, g6, by simpa using hcs,
          l1, l2, l3, l4, l5, l6, d1, d2, d3, d4, d5, d6⟩
  · rintro ⟨g1, g2, g3, g4, g5, g6, hcs, l1, l2, l3, l4, l5, l6,
      d1, d2, d3, d4, d5, d6⟩
    have hc := cnjAt_complete (r := []) l1 l2 l3 l4 l5 l6 d1 d2 d3 d4 d5 d6
    unfold cnjFull
    rw [show s.toList =
        g1 ++ '-' :: (g2 ++ '.' :: (g3 ++ '.' :: (g4 ++ '.' :: (g5 ++ '.' :: (g6 ++ []))))) from by
      simpa using hcs]
    rw [hc]

theorem findValueGo_nokey : ∀ (keysL : List String) (lines : List String),
    (∀ ln ∈ lines, lineHasKey keysL ln = false) → findValueGo keysL lines = none := by
  intro keysL lines
  induction lines with
  | nil => intro _; rfl
  | cons ln rest ih =>
    intro h
    simp only [findValueGo, h ln (List.mem_cons_self ln rest)]
    simp only [Bool.false_eq_true, if_false]
    exact ih (fun x hx => h x (List.mem_cons_of_mem ln hx))

/-- C4 counterexample: the claim's "first label match wins" rule (formalised
    as `find_value_firstMatch`) yields `none` on the three lines below — the
    first matching line's right-hand side and next line are both noise — while
    the source's `find_value` keeps scanning and returns the value of the
    third line. -/
theorem find_value_not_first_match :
    find_value ["assunto"]
        ["Assunto: Visualizar documento", "Certidão", "Assunto: Dano moral"] =
      some "Dano moral" ∧
    find_value_firstMatch ["assunto"]
        ["Assunto: Visualizar documento", "Certidão", "Assunto: Dano moral"] = none ∧
    (some "Dano moral" ≠ (none : Option String)) :=
  ⟨by decide, by decide, by decide⟩

/-- C4 amended: label-value extraction scans the normalized non-empty lines
    in order; at a line containing a synonym key it uses the stripped text
    after the first colon or dash when that is non-empty and not noise,
    otherwise the next line when that is not noise; when both candidates fail
    the scan continues with the remaining lines (rather than the first label
    match winning), and a field for which no matching line yields a usable
    value is null. The spec's three concrete examples hold as stated. -/
theorem find_value_scan_rule :
    (find_value ["assunto"] ["Assunto: Dano moral", "Autuado em 2023"] = some "Dano moral") ∧
    (find_value ["classe judicial", "classe"] ["Classe", "Procedimento Comum"] =
      some "Procedimento Comum") ∧
    (find_value ["assunto"] ["Assunto: Visualizar documento"] = none) ∧
    (∀ (keys lines : List String), (∀ ln ∈ lines, lineHasKey (keys.map lowerS) ln = false) →
      find_value keys lines = none) ∧
    (∀ (ln : String), rhsCandidate ln = some "" → False) ∧
    (∀ (keys : List String) (ln : String) (rest : List String) (v : String),
      lineHasKey (keys.map lowerS) ln = true →
      rhsCandidate ln = some v →
      find_value keys (ln :: rest) = some v) ∧
    (∀ (keys : List String) (ln : String) (rest : List String),
      lineHasKey (keys.map lowerS) ln = true →
      rhsCandidate ln = none →
      (∀ nxt, rest.head? = some nxt → unwanted nxt = true) →
      find_value keys (ln :: rest) = find_value keys rest) := by
  refine ⟨by decide, by decide, by decide, ?_, ?_, ?_, ?_⟩
  · intro keys lines h
    exact findValueGo_nokey _ lines h
  · intro ln hrhs
    unfold rhsCandidate at hrhs
    cases hsp : splitSep ln.toList with
    | none => rw [hsp] at hrhs; exact Option.noConfusion hrhs
    | some post =>
      rw [hsp] at hrhs
      simp only at hrhs
      split at hrhs
      · next hcond =>
        have hv := Option.some.inj hrhs
        have : stripList post = [] := by
          have := congrArg String.toList hv
          simpa using this
        exact hcond.1 this
      · exact Option.noConfusion hrhs
  · intro keys ln rest v hkey hrhs
    unfold find_value
    simp only [findValueGo, hkey, if_true, hrhs]
  · intro keys ln rest hkey hrhs hnxt
    unfold find_value
    simp only [findValueGo, hkey, if_true, hrhs]
    cases rest with
    | nil => rfl
    | cons nxt rs =>
      simp only [hnxt nxt rfl, if_true]

theorem find_value_scan_rule_witness :
    find_value ["assunto"]
        ["Assunto: Visualizar documento", "Certidão", "Assunto: Dano moral"] =
      find_value ["assunto"] ["Certidão", "Assunto: Dano moral"] :=
  find_value_scan_rule.2.2.2.2.2.2 ["assunto"] "Assunto: Visualizar documento"
    ["Certidão", "Assunto: Dano moral"] (by decide) (by decide)
    (by
      intro nxt h
      simp only [List.head?_cons, Option.some.injEq] at h
      subst h
      decide)

theorem movFilter_sublist : ∀ (rows seen : List String),
    List.Sublist (movFilter seen rows) (rows.map norm) := by
  intro rows
  induction rows with
  | nil => intro seen; simp [movFilter]
  | cons r rest ih =>
    intro seen
    simp only [movFilter, List.map_cons]
    by_cases h : norm r ≠ "" ∧ norm r ∉ seen ∧ unwanted (norm r) = false
    · rw [if_pos h]
      exact List.Sublist.cons₂ (norm r) (ih (norm r :: seen))
    · rw [if_neg h]
      exact List.Sublist.cons (norm r) (ih seen)

theorem movFilter_mem : ∀ (rows seen : List String) (t : String),
    t ∈ movFilter seen rows → t ≠ "" ∧ t ∉ seen ∧ unwanted t = false := by
  intro rows
  induction rows with
  | nil => intro seen t h; simp [movFilter] at h
  | cons r rest ih =>
    intro seen t h
    simp only [movFilter] at h
    by_cases hc : norm r ≠ "" ∧ norm r ∉ seen ∧ unwanted (norm r) = false
    · rw [if_pos hc] at h
      rcases List.mem_cons.mp h with h | h
      · subst h; exact hc
      · have hrec := ih (norm r :: seen) t h
        exact ⟨hrec.1, fun hm => hrec.2.1 (List.mem_cons_of_mem _ hm), hrec.2.2⟩
    · rw [if_neg hc] at h
      exact ih seen t h

theorem movFilter_nodup : ∀ (rows seen : List String), (movFilter seen rows).Nodup := by
  intro rows
  induction rows with
  | nil => intro seen; simp [movFilter]
  | cons r rest ih =>
    intro seen
    simp only [movFilter]
    by_cases hc : norm r ≠ "" ∧ norm r ∉ seen ∧ unwanted (norm r) = false
    · rw [if_pos hc]
      refine List.nodup_cons.mpr ⟨?_, ih (norm r :: seen)⟩
      intro hmem
      exact (movFilter_mem rest (norm r :: seen) (norm r) hmem).2.1 (List.mem_cons_self _ _)
    · rw [if_neg hc]; exact ih seen

/-- C7: movement extraction uses only the first selector that yields at least
    one row; its output is capped at 20 rows, consists of pairwise-distinct
    normalized row texts in row order (a sublist of the normalized first 20
    rows), and contains no noise-filter match and no empty text. -/
theorem extract_movements_spec :
    ∀ rps : List (List String),
      (extract_movements rps).length ≤ 20 ∧
      (extract_movements rps).Nodup ∧
      (∀ t ∈ extract_movements rps, t ≠ "" ∧ unwanted t = false) ∧
      List.Sublist (extract_movements rps) (((firstNonEmptyRows rps).take 20).map norm) ∧
      (∀ rs rest, rps = rs :: rest → rs ≠ [] → extract_movements rps = extract_movements [rs]) ∧
      (∀ rs rest, rps = rs :: rest → rs = [] → extract_movements rps = extract_movements rest) := by
  intro rps
  refine ⟨?_, movFilter_nodup _ _, ?_, movFilter_sublist _ _, ?_, ?_⟩
  · have h := (movFilter_sublist ((firstNonEmptyRows rps).take 20) []).length_le
    calc (extract_movements rps).length
        ≤ (((firstNonEmptyRows rps).take 20).map norm).length := h
      _ = ((firstNonEmptyRows rps).take 20).length := by rw [List.length_map]
      _ ≤ 20 := by rw [List.length_take]; exact min_le_left _ _
  · intro t ht
    have h := movFilter_mem _ _ t ht
    exact ⟨h.1, h.2.2⟩
  · intro rs rest hr hne
    subst hr
    cases rs with
    | nil => exact absurd rfl hne
    | cons a as => simp [extract_movements, firstNonEmptyRows]
  · intro rs rest hr he
    subst hr; subst he
    simp [extract_movements, firstNonEmptyRows]

theorem extract_movements_spec_witness :
    extract_movements [["Despacho 1", "Visualizar documento"], ["outro"]] =
      extract_movements [["Despacho 1", "Visualizar documento"]] :=
  (extract_movements_spec [["Despacho 1", "Visualizar documento"], ["outro"]]).2.2.2.2.1
    ["Despacho 1", "Visualizar documento"] [["outro"]] rfl (by decide)

theorem cnj_pattern_exact_witness : cnjFull "7654321-09.2024.4.06.9999" = true :=
  (cnj_pattern_exact.1 "7654321-09.2024.4.06.9999").mpr
    ⟨['7', '6', '5', '4', '3', '2', '1'], ['0', '9'], ['2', '0', '2', '4'], ['4'],
      ['0', '6'], ['9', '9', '9', '9'],
      by decide, by decide, by decide, by decide, by decide, by decide, by decide,
      by decide, by decide, by decide, by decide, by decide, by decide⟩

/-! # Step equations of the extraction loop -/

theorem processLinks_raise (l : Link) (rest : List Link) (seen : List String)
    (acc : List Proc) (e : String) (h : l.raises = some e) :
    processLinks (l :: rest) seen acc = ⟨acc, seen, some e⟩ := by
  simp [processLinks, h]

theorem processLinks_skip_nonum (l : Link) (rest : List Link) (seen : List String)
    (acc : List Proc) (h : l.raises = none) (h2 : linkNum l = none) :
    processLinks (l :: rest) seen acc = processLinks rest seen acc := by
  simp [processLinks, h, h2]

theorem processLinks_skip_dup (l : Link) (rest : List Link) (seen : List String)
    (acc : List Proc) (numero : String) (h : l.raises = none)
    (h2 : linkNum l = some numero) (h3 : numero ∈ seen) :
    processLinks (l :: rest) seen acc = processLinks rest seen acc := by
  simp [processLinks, h, h2, h3]

theorem processLinks_popup (l : Link) (rest : List Link) (seen : List String)
    (acc : List Proc) (numero : String) (p : PopupData) (h : l.raises = none)
    (h2 : linkNum l = some numero) (h3 : numero ∉ seen) (h4 : l.popup = some p) :
    processLinks (l :: rest) seen acc =
      processLinks rest (numero :: seen) (acc ++ [fullRecord numero (l.rowText.map norm) p]) := by
  simp [processLinks, h, h2, h3, h4]

theorem processLinks_warn (l : Link) (rest : List Link) (seen : List String)
    (acc : List Proc) (numero : String) (h : l.raises = none)
    (h2 : linkNum l = some numero) (h3 : numero ∉ seen) (h4 : l.popup = none) :
    processLinks (l :: rest) seen acc =
      processLinks rest (numero :: seen) (acc ++ [warnRecord numero (l.rowText.map norm)]) := by
  simp [processLinks, h, h2, h3, h4]

theorem processLinks_aviso : ∀ (ls : List Link) (seen : List String) (acc : List Proc),
    (∀ r ∈ acc, AvisoOk r) → ∀ r ∈ (processLinks ls seen acc).procs, AvisoOk r := by
  intro ls
  induction ls with
  | nil => intro seen acc hacc r hr; exact hacc r hr
  | cons l rest ih =>
    intro seen acc hacc r hr
    cases hraise : l.raises with
    | some e =>
      rw [processLinks_raise l rest seen acc e hraise] at hr
      exact hacc r hr
    | none =>
      cases hnum : linkNum l with
      | none =>
        rw [processLinks_skip_nonum l rest seen acc hraise hnum] at hr
        exact ih seen acc hacc r hr
      | some numero =>
        by_cases hseen : numero ∈ seen
        · rw [processLinks_skip_dup l rest seen acc numero hraise hnum hseen] at hr
          exact ih seen acc hacc r hr
        · cases hpop : l.popup with
          | some p =>
            rw [processLinks_popup l rest seen acc numero p hraise hnum hseen hpop] at hr
            refine ih _ _ ?_ r hr
            intro x hx
            rcases List.mem_append.mp hx with hx | hx
            · exact hacc x hx
            · rw [List.mem_singleton.mp hx]; left; rfl
          | none =>
            rw [processLinks_warn l rest seen acc numero hraise hnum hseen hpop] at hr
            refine ih _ _ ?_ r hr
            intro x hx
            rcases List.mem_append.mp hx with hx | hx
            · exact hacc x hx
            · rw [List.mem_singleton.mp hx]; right
              exact ⟨rfl, rfl, rfl, rfl, rfl, rfl, rfl, rfl⟩

/-- C3: a link whose popup did not open produces — without raising — exactly
    the record carrying `aviso = "popup_nao_abriu"` and the row summary, and
    the loop continues with the remaining links; a link whose popup opened
    produces a record with no warning; and every record the loop emits either
    has no warning or is exactly the popup-failure shape (warning is set on no
    other path). -/
theorem popup_failure_contract :
    (∀ (l : Link) (rest : List Link) (seen : List String) (acc : List Proc) (numero : String),
      l.raises = none → linkNum l = some numero → numero ∉ seen → l.popup = none →
      processLinks (l :: rest) seen acc =
        processLinks rest (numero :: seen) (acc ++ [warnRecord numero (l.rowText.map norm)])) ∧
    (∀ (numero : String) (partes : Option String),
      (warnRecord numero partes).aviso = some "popup_nao_abriu" ∧
      (warnRecord numero partes).resumo = partes ∧
      (warnRecord numero partes).assunto = none ∧
      (warnRecord numero partes).classe_judicial = none ∧
      (warnRecord numero partes).data_distribuicao = none ∧
      (warnRecord numero partes).orgao_julgador = none ∧
      (warnRecord numero partes).jurisdicao = none ∧
      (warnRecord numero partes).movimentacoes = [] ∧
      (warnRecord numero partes).partes_resumo = none) ∧
    (∀ (numero : String) (partes : Option String) (p : PopupData),
      (fullRecord numero partes p).aviso = none) ∧
    (∀ (ls : List Link) (seen : List String), ∀ r ∈ (processLinks ls seen []).procs, AvisoOk r) := by
  refine ⟨processLinks_warn, ?_, ?_, ?_⟩
  · intro numero partes
    exact ⟨rfl, rfl, rfl, rfl, rfl, rfl, rfl, rfl, rfl⟩
  · intro numero partes p; rfl
  · intro ls seen
    exact processLinks_aviso ls seen [] (by intro r hr; exact absurd hr (List.not_mem_nil r))

theorem popup_failure_contract_witness :
    processLinks [{ text := "1234567-89.2023.4.06.0001", rowText := some "AUTOR x REU" }] [] [] =
      processLinks [] ["1234567-89.2023.4.06.0001"]
        ([] ++ [warnRecord "1234567-89.2023.4.06.0001"
          (Option.map norm (some "AUTOR x REU"))]) :=
  popup_failure_contract.1
    { text := "1234567-89.2023.4.06.0001", rowText := some "AUTOR x REU" }
    [] [] [] "1234567-89.2023.4.06.0001" rfl (by decide) (by decide) rfl

theorem processLinks_append_ok : ∀ (xs ys : List Link) (seen : List String) (acc : List Proc),
    (processLinks xs seen acc).erro = none →
    processLinks (xs ++ ys) seen acc =
      processLinks ys (processLinks xs seen acc).seen (processLinks xs seen acc).procs := by
  intro xs
  induction xs with
  | nil => intro ys seen acc _; simp [processLinks]
  | cons l rest ih =>
    intro ys seen acc herr
    cases hraise : l.raises with
    | some e =>
      rw [processLinks_raise l rest seen acc e hraise] at herr
      exact absurd herr (by simp)
    | none =>
      cases hnum : linkNum l with
      | none =>
        have h1 := processLinks_skip_nonum l (rest ++ ys) seen acc hraise hnum
        have h2 := processLinks_skip_nonum l rest seen acc hraise hnum
        rw [h2] at herr
        rw [List.cons_append, h1, h2]
        exact ih ys seen acc herr
      | some numero =>
        by_cases hseen : numero ∈ seen
        · have h1 := processLinks_skip_dup l (rest ++ ys) seen acc numero hraise hnum hseen
          have h2 := processLinks_skip_dup l rest seen acc numero hraise hnum hseen
          rw [h2] at herr
          rw [List.cons_append, h1, h2]
          exact ih ys seen acc herr
        · cases hpop : l.popup with
          | some p =>
            have h1 := processLinks_popup l (rest ++ ys) seen acc numero p hraise hnum hseen hpop
            have h2 := processLinks_popup l rest seen acc numero p hraise hnum hseen hpop
            rw [h2] at herr
            rw [List.cons_append, h1, h2]
            exact ih ys _ _ herr
          | none =>
            have h1 := processLinks_warn l (rest ++ ys) seen acc numero hraise hnum hseen hpop
            have h2 := processLinks_warn l rest seen acc numero hraise hnum hseen hpop
            rw [h2] at herr
            rw [List.cons_append, h1, h2]
            exact ih ys _ _ herr

theorem processLinks_noraise : ∀ (ls : List Link) (seen : List String) (acc : List Proc),
    (∀ l ∈ ls, l.raises = none) → (processLinks ls seen acc).erro = none := by
  intro ls
  induction ls with
  | nil => intro seen acc _; rfl
  | cons l rest ih =>
    intro seen acc h
    have hraise : l.raises = none := h l (List.mem_cons_self l rest)
    have hrest : ∀ x ∈ rest, x.raises = none := fun x hx => h x (List.mem_cons_of_mem l hx)
    cases hnum : linkNum l with
    | none =>
      rw [processLinks_skip_nonum l rest seen acc hraise hnum]
      exact ih seen acc hrest
    | some numero =>
      by_cases hseen : numero ∈ seen
      · rw [processLinks_skip_dup l rest seen acc numero hraise hnum hseen]
        exact ih seen acc hrest
      · cases hpop : l.popup with
        | some p =>
          rw [processLinks_popup l rest seen acc numero p hraise hnum hseen hpop]
          exact ih _ _ hrest
        | none =>
          rw [processLinks_warn l rest seen acc numero hraise hnum hseen hpop]
          exact ih _ _ hrest

theorem processLinks_seen_mem : ∀ (ls : List Link) (seen : List String) (acc : List Proc)
    (n : String), (∀ l ∈ ls, l.raises = none) →
    (n ∈ (processLinks ls seen acc).seen ↔ n ∈ seen ∨ ∃ l ∈ ls, linkNum l = some n) := by
  intro ls
  induction ls with
  | nil => intro seen acc n _; simp [processLinks]
  | cons l rest ih =>
    intro seen acc n h
    have hraise : l.raises = none := h l (List.mem_cons_self l rest)
    have hrest : ∀ x ∈ rest, x.raises = none := fun x hx => h x (List.mem_cons_of_mem l hx)
    cases hnum : linkNum l with
    | none =>
      rw [processLinks_skip_nonum l rest seen acc hraise hnum, ih seen acc n hrest]
      constructor
      · rintro (h' | h')
        · exact Or.inl h'
        · exact Or.inr (by
            obtain ⟨x, hx, hx'⟩ := h'
            exact ⟨x, List.mem_cons_of_mem l hx, hx'⟩)
      · rintro (h' | ⟨x, hx, hx'⟩)
        · exact Or.inl h'
        · rcases List.mem_cons.mp hx with hx | hx
          · subst hx; rw [hnum] at hx'; exact absurd hx' (by simp)
          · exact Or.inr ⟨x, hx, hx'⟩
    | some numero =>
      by_cases hseen : numero ∈ seen
      · rw [processLinks_skip_dup l rest seen acc numero hraise hnum hseen, ih seen acc n hrest]
        constructor
        · rintro (h' | h')
          · exact Or.inl h'
          · exact Or.inr (by
              obtain ⟨x, hx, hx'⟩ := h'
              exact ⟨x, List.mem_cons_of_mem l hx, hx'⟩)
        · rintro (h' | ⟨x, hx, hx'⟩)
          · exact Or.inl h'
          · rcases List.mem_cons.mp hx with hx | hx
            · subst hx
              rw [hnum] at hx'
              have : numero = n := by simpa using hx'
              subst this
              exact Or.inl hseen
            · exact Or.inr ⟨x, hx, hx'⟩
      · have key : ∀ (acc' : List Proc),
            (n ∈ (processLinks rest (numero :: seen) acc').seen ↔
              n ∈ seen ∨ ∃ x ∈ l :: rest, linkNum x = some n) := by
          intro acc'
          rw [ih (numero :: seen) acc' n hrest]
          constructor
          · rintro (h' | h')
            · rcases List.mem_cons.mp h' with h' | h'
              · subst h'
                exact Or.inr ⟨l, List.mem_cons_self l rest, hnum⟩
              · exact Or.inl h'
            · exact Or.inr (by
                obtain ⟨x, hx, hx'⟩ := h'
                exact ⟨x, List.mem_cons_of_mem l hx, hx'⟩)
          · rintro (h' | ⟨x, hx, hx'⟩)
            · exact Or.inl (List.mem_cons_of_mem numero h')
            · rcases List.mem_cons.mp hx with hx | hx
              · subst hx
                rw [hnum] at hx'
                have : numero = n := by simpa using hx'
                subst this
                exact Or.inl (List.mem_cons_self _ _)
              · exact Or.inr ⟨x, hx, hx'⟩
        cases hpop : l.popup with
        | some p =>
          rw [processLinks_popup l rest seen acc numero p hraise hnum hseen hpop]
          exact key _
        | none =>
          rw [processLinks_warn l rest seen acc numero hraise hnum hseen hpop]
          exact key _

theorem processLinks_numbers_nodup : ∀ (ls : List Link) (seen : List String) (acc : List Proc),
    (∀ r ∈ acc, r.numero ∈ seen) → ((acc.map Proc.numero).Nodup) →
    (((processLinks ls seen acc).procs).map Proc.numero).Nodup := by
  intro ls
  induction ls with
  | nil => intro seen acc _ h2; exact h2
  | cons l rest ih =>
    intro seen acc h1 h2
    cases hraise : l.raises with
    | some e =>
      rw [processLinks_raise l rest seen acc e hraise]
      exact h2
    | none =>
      cases hnum : linkNum l with
      | none =>
        rw [processLinks_skip_nonum l rest seen acc hraise hnum]
        exact ih seen acc h1 h2
      | some numero =>
        by_cases hseen : numero ∈ seen
        · rw [processLinks_skip_dup l rest seen acc numero hraise hnum hseen]
          exact ih seen acc h1 h2
        · have hmem : ∀ (rec : Proc), rec.numero = numero →
              (∀ r ∈ acc ++ [rec], r.numero ∈ numero :: seen) ∧
                ((acc ++ [rec]).map Proc.numero).Nodup := by
            intro rec hrec
            constructor
            · intro r hr
              rcases List.mem_append.mp hr with hr | hr
              · exact List.mem_cons_of_mem numero (h1 r hr)
              · rw [List.mem_singleton.mp hr, hrec]
                exact List.mem_cons_self _ _
            · rw [List.map_append]
              rw [List.nodup_append]
              refine ⟨h2, by simp, ?_⟩
              intro a ha hb
              simp only [List.map_cons, List.map_nil, List.mem_singleton] at hb
              rw [hrec] at hb
              subst hb
              obtain ⟨r, hr, hrn⟩ := List.mem_map.mp ha
              exact hseen (hrn ▸ h1 r hr)
          cases hpop : l.popup with
          | some p =>
            rw [processLinks_popup l rest seen acc numero p hraise hnum hseen hpop]
            have h := hmem (fullRecord numero (l.rowText.map norm) p) rfl
            exact ih _ _ h.1 h.2
          | none =>
            rw [processLinks_warn l rest seen acc numero hraise hnum hseen hpop]
            have h := hmem (warnRecord numero (l.rowText.map norm)) rfl
            exact ih _ _ h.1 h.2

/-- C6: within one query the emitted case numbers are pairwise distinct, and
    a link whose case number already occurred earlier in document order is
    dropped — the loop's result is unchanged by deleting the duplicate link —
    so the single record for a number is built from its first occurrence. -/
theorem dedup_first_wins :
    (∀ ls : List Link, (((processLinks ls [] []).procs).map Proc.numero).Nodup) ∧
    (∀ (pre : List Link) (l : Link) (rest : List Link) (n : String),
      (∀ x ∈ pre, x.raises = none) → l.raises = none → linkNum l = some n →
      (∃ x ∈ pre, linkNum x = some n) →
      processLinks (pre ++ l :: rest) [] [] = processLinks (pre ++ rest) [] []) := by
  constructor
  · intro ls
    exact processLinks_numbers_nodup ls [] []
      (fun r hr => absurd hr (List.not_mem_nil r)) List.nodup_nil
  · intro pre l rest n hpre hl hn hex
    have hok : (processLinks pre [] []).erro = none := processLinks_noraise pre [] [] hpre
    have hseen : n ∈ (processLinks pre [] []).seen := by
      rw [processLinks_seen_mem pre [] [] n hpre]
      exact Or.inr hex
    rw [processLinks_append_ok pre (l :: rest) [] [] hok,
        processLinks_append_ok pre rest [] [] hok,
        processLinks_skip_dup l rest _ _ n hl hn hseen]

theorem dedup_first_wins_witness :
    processLinks
        [{ text := "1234567-89.2023.4.06.0001", rowText := some "A" },
         { text := "1234567-89.2023.4.06.0001", rowText := some "B" },
         { text := "7654321-09.2024.4.06.0002", rowText := some "C" }] [] [] =
      processLinks
        [{ text := "1234567-89.2023.4.06.0001", rowText := some "A" },
         { text := "7654321-09.2024.4.06.0002", rowText := some "C" }] [] [] :=
  dedup_first_wins.2
    [{ text := "1234567-89.2023.4.06.0001", rowText := some "A" }]
    { text := "1234567-89.2023.4.06.0001", rowText := some "B" }
    [{ text := "7654321-09.2024.4.06.0002", rowText := some "C" }]
    "1234567-89.2023.4.06.0001"
    (by intro x hx; rw [List.mem_singleton.mp hx])
    rfl (by decide)
    ⟨{ text := "1234567-89.2023.4.06.0001", rowText := some "A" },
      List.mem_singleton.mpr rfl, by decide⟩

/-- When navigation, input lookup, fill and submit all succeed, the body is
    the no-records check followed by the extraction loop. -/
theorem runBody_ok (env : Env) (hg : env.gotoRaises = none) (hi : env.inputFound = true)
    (hf : env.fillRaises = none)
    (hs : env.submitBtnFound = true → env.submitClickRaises = none) :
    runBody env =
      if (procLinksOf env).length = 0 ∧ env.noRecordsPhrase then
        ⟨[], some "nenhum_processo_encontrado", none⟩
      else
        ⟨(processLinks (procLinksOf env) [] []).procs, none,
          (processLinks (procLinksOf env) [] []).erro⟩ := by
  cases hb : env.submitBtnFound with
  | true => simp [runBody, hg, hi, hf, hb, hs hb, submitPath]
  | false => simp [runBody, hg, hi, hf, hb, submitPath]

/-- C2: the orchestrator always returns a structured result with the browser
    session closed; the result's `erro_interno` is exactly the exception the
    body raised (none when nothing raised), for each injection point between
    navigation and extraction — navigation failure, missing document input,
    fill failure, submit-click failure — and the base fields are still
    populated. -/
theorem scrape_catches_and_closes :
    ∀ (doc tipo ts : String) (env : Env) (e : String),
      (scrape_pje doc tipo ts env).2 = true ∧
      (scrape_pje doc tipo ts env).1.erro_interno = (runBody env).erro ∧
      (scrape_pje doc tipo ts env).1.documento = doc ∧
      (scrape_pje doc tipo ts env).1.tipo = upperS tipo ∧
      (scrape_pje doc tipo ts env).1.timestamp = ts ∧
      (env.gotoRaises = some e → (scrape_pje doc tipo ts env).1.erro_interno = some e) ∧
      (env.gotoRaises = none → env.inputFound = false →
        (scrape_pje doc tipo ts env).1.erro_interno = some "campo_input_nao_encontrado") ∧
      (env.gotoRaises = none → env.inputFound = true → env.fillRaises = some e →
        (scrape_pje doc tipo ts env).1.erro_interno = some e) ∧
      (env.gotoRaises = none → env.inputFound = true → env.fillRaises = none →
        env.submitBtnFound = true → env.submitClickRaises = some e →
        (scrape_pje doc tipo ts env).1.erro_interno = some e) ∧
      ((runBody env).erro = none → (scrape_pje doc tipo ts env).1.erro_interno = none) := by
  intro doc tipo ts env e
  refine ⟨rfl, rfl, rfl, rfl, rfl, ?_, ?_, ?_, ?_, ?_⟩
  · intro h; simp [scrape_pje, runBody, h]
  · intro h1 h2; simp [scrape_pje, runBody, h1, h2]
  · intro h1 h2 h3; simp [scrape_pje, runBody, h1, h2, h3]
  · intro h1 h2 h3 h4 h5; simp [scrape_pje, runBody, h1, h2, h3, h4, h5, submitPath]
  · intro h; simpa [scrape_pje] using h

theorem scrape_catches_and_closes_witness :
    (scrape_pje "123" "cpf" "T" { gotoRaises := some "net::ERR_TIMED_OUT" }).1.erro_interno =
      some "net::ERR_TIMED_OUT" :=
  (scrape_catches_and_closes "123" "cpf" "T" { gotoRaises := some "net::ERR_TIMED_OUT" }
    "net::ERR_TIMED_OUT").2.2.2.2.2.1 rfl

/-- C1 counterexample: with no qualifying links on the page and no no-records
    phrase, the source returns a result whose `mensagem` is unset — not the
    claimed string `"nenhum_processo_encontrado_no_tempo_limite"`, which
    appears nowhere in the code — and no snapshot is attached (the result has
    no snapshot field at all). -/
theorem no_links_counterexample :
    (scrape_pje "12345678900" "cpf" "2026-01-01T00:00:00Z" ({} : Env)).1.mensagem ≠
      some "nenhum_processo_encontrado_no_tempo_limite" ∧
    (scrape_pje "12345678900" "cpf" "2026-01-01T00:00:00Z" ({} : Env)).1.mensagem = none ∧
    (scrape_pje "12345678900" "cpf" "2026-01-01T00:00:00Z" ({} : Env)).1.processos = [] :=
  ⟨by decide, by decide, by decide⟩

/-- C1 amended: when no link matching the case-number pattern appears, the
    extraction loop is skipped (processes stays empty) and the invocation
    returns normally; `mensagem` is set — to `"nenhum_processo_encontrado"` —
    only when the explicit no-records phrase is present on the page, and no
    message or snapshot is attached otherwise. -/
theorem no_links_no_message :
    ∀ (doc tipo ts : String) (env : Env),
      env.gotoRaises = none → env.inputFound = true → env.fillRaises = none →
      (env.submitBtnFound = true → env.submitClickRaises = none) →
      procLinksOf env = [] →
      ((env.noRecordsPhrase = false →
        (scrape_pje doc tipo ts env).1.mensagem = none ∧
        (scrape_pje doc tipo ts env).1.processos = [] ∧
        (scrape_pje doc tipo ts env).1.erro_interno = none) ∧
       (env.noRecordsPhrase = true →
        (scrape_pje doc tipo ts env).1.mensagem = some "nenhum_processo_encontrado" ∧
        (scrape_pje doc tipo ts env).1.processos = [])) := by
  intro doc tipo ts env hg hi hf hs hpl
  have hrb := runBody_ok env hg hi hf hs
  rw [hpl] at hrb
  constructor
  · intro hnr
    rw [if_neg (by simp [hnr])] at hrb
    simp only [processLinks] at hrb
    simp [scrape_pje, hrb]
  · intro hnr
    rw [if_pos (by simp [hnr])] at hrb
    simp [scrape_pje, hrb]

theorem no_links_no_message_witness :
    (scrape_pje "12345678900" "cpf" "T"
      { links := [{ text := "nenhum" }], noRecordsPhrase := true }).1.mensagem =
      some "nenhum_processo_encontrado" :=
  ((no_links_no_message "12345678900" "cpf" "T"
      { links := [{ text := "nenhum" }], noRecordsPhrase := true }
      rfl rfl rfl (fun _ => rfl) (by decide)).2 rfl).1

/-- C5 counterexample: when the submit control is found and its timed click
    fails, the source performs no scripted-click fallback — the exception
    escapes the submit step and surfaces as the invocation's internal
    error. -/
theorem submit_click_failure_raises :
    submitPath true (some "Timeout 30000ms exceeded.") =
      SubmitPath.raised "Timeout 30000ms exceeded." ∧
    submitPath true (some "Timeout 30000ms exceeded.") ≠ SubmitPath.scriptedClick ∧
    (scrape_pje "12345678900" "cpf" "T"
      { submitClickRaises := some "Timeout 30000ms exceeded." }).1.erro_interno =
      some "Timeout 30000ms exceeded." :=
  ⟨by decide, by decide, by decide⟩

/-- C5 amended: exactly one of two submit paths executes — a found control
    gets the timed interactive click (whose failure raises an exception that
    the orchestrator records in `erro_interno`, with no scripted-click
    fallback), and a missing control falls back to pressing Enter on the
    document input. -/
theorem submit_two_paths :
    ∀ (bf : Bool) (cr : Option String),
      submitPath bf cr ≠ SubmitPath.scriptedClick ∧
      (bf = false → submitPath bf cr = SubmitPath.pressEnter) ∧
      (bf = true → cr = none → submitPath bf cr = SubmitPath.interactiveClick) ∧
      (∀ e, bf = true → cr = some e → submitPath bf cr = SubmitPath.raised e) ∧
      (∀ (doc tipo ts : String) (env : Env) (e : String),
        env.gotoRaises = none → env.inputFound = true → env.fillRaises = none →
        env.submitBtnFound = true → env.submitClickRaises = some e →
        (scrape_pje doc tipo ts env).1.erro_interno = some e) := by
  intro bf cr
  refine ⟨?_, ?_, ?_, ?_, ?_⟩
  · cases bf <;> cases cr <;> simp [submitPath]
  · intro h; subst h; simp [submitPath]
  · intro h1 h2; subst h1; subst h2; simp [submitPath]
  · intro e h1 h2; subst h1; subst h2; simp [submitPath]
  · intro doc tipo ts env e h1 h2 h3 h4 h5
    simp [scrape_pje, runBody, h1, h2, h3, h4, h5, submitPath]

theorem submit_two_paths_witness :
    submitPath false none = SubmitPath.pressEnter :=
  (submit_two_paths false none).2.1 rfl

/-- C10: on the caught-exception path the orchestrator only adds the
    internal-error string — the returned result still carries the input
    digits, the uppercased kind and the timestamp fixed at the start, and its
    process list is exactly the records appended before the exception. -/
theorem exception_frame :
    ∀ (doc tipo ts : String) (env : Env) (e : String) (pre : List Link)
      (lbad : Link) (rest : List Link),
      env.gotoRaises = none → env.inputFound = true → env.fillRaises = none →
      (env.submitBtnFound = true → env.submitClickRaises = none) →
      procLinksOf env = pre ++ lbad :: rest →
      (∀ x ∈ pre, x.raises = none) → lbad.raises = some e →
      (scrape_pje doc tipo ts env).1 =
        { documento := doc, tipo := upperS tipo, timestamp := ts,
          processos := (processLinks pre [] []).procs,
          mensagem := none, erro_interno := some e } := by
  intro doc tipo ts env e pre lbad rest hg hi hf hs hpl hpre hbad
  have hrb := runBody_ok env hg hi hf hs
  rw [hpl] at hrb
  rw [if_neg (by intro hcon; have := hcon.1; simp at this)] at hrb
  have hok : (processLinks pre [] []).erro = none := processLinks_noraise pre [] [] hpre
  have happ := processLinks_append_ok pre (lbad :: rest) [] [] hok
  rw [processLinks_raise lbad rest (processLinks pre [] []).seen
    (processLinks pre [] []).procs e hbad] at happ
  rw [happ] at hrb
  simp [scrape_pje, hrb]

theorem exception_frame_witness :
    (scrape_pje "04111222000199" "cnpj" "2026-01-01T00:00:00Z"
      { links := [{ text := "1234567-89.2023.4.06.0001", rowText := some "A" },
                  { text := "7654321-09.2024.4.06.0002",
                    raises := some "Execution context was destroyed" }] }).1 =
      { documento := "04111222000199", tipo := upperS "cnpj",
        timestamp := "2026-01-01T00:00:00Z",
        processos := (processLinks
          [{ text := "1234567-89.2023.4.06.0001", rowText := some "A" }] [] []).procs,
        mensagem := none, erro_interno := some "Execution context was destroyed" } :=
  exception_frame "04111222000199" "cnpj" "2026-01-01T00:00:00Z"
    { links := [{ text := "1234567-89.2023.4.06.0001", rowText := some "A" },
                { text := "7654321-09.2024.4.06.0002",
                  raises := some "Execution context was destroyed" }] }
    "Execution context was destroyed"
    [{ text := "1234567-89.2023.4.06.0001", rowText := some "A" }]
    { text := "7654321-09.2024.4.06.0002", raises := some "Execution context was destroyed" }
    [] rfl rfl rfl (fun _ => rfl) (by decide)
    (by intro x hx; rw [List.mem_singleton.mp hx]) rfl
